import Mathlib

set_option maxHeartbeats 1000000
set_option linter.unnecessarySimpa false

/-!
Shallow embedding of the AGS.Case gold-layer SCD2 reconciliation scripts
(`src/scripts/gold/apply_gold_salarie.py`, `src/scripts/gold/apply_gold_paiement.py`,
`src/scripts/apply_gold_demande_avance.py`).

Modelling conventions:
- Python values that flow into `md5_hash` are modelled by `PyVal`; `str()`
  canonicalization is `pyCanon`. The MD5 digest itself is modelled by the
  canonical preimage string (`"||".join(canonical values)`): MD5 is a fixed
  deterministic function of that string, so equal preimages give equal digests
  and — collisions of MD5 aside — distinct preimages give distinct digests.
- Dates are day codes (`Nat`); the sentinel `date '9999-12-31'` is `openEnd`.
- Python dicts keyed by strings are association lists built with
  last-write-wins insertion (`dictUpd`), exactly like the fetch loops
  `out[str(k)] = {...}` in the scripts.
- Database rows live in plain lists; an SQL `update ... where` is a `List.map`
  guarded by the `where` predicate, an `insert` appends a row.
- Exceptions are `Except String`; the `conn.commit()/conn.rollback()` pair of
  each script's `main` is `commitOrRollback`: the second component is the
  history visible after the run (committed state), unchanged on any error.
-/

/-- A Python value that can appear in the list handed to `md5_hash`. -/
inductive PyVal
  | vnone
  | vstr (s : String)
  | vbool (b : Bool)
  | vfloat (q : Rat)
  | vdate (d : Nat)
  deriving DecidableEq

/-- `"" if v is None else str(v)` from `md5_hash`: `None` maps to the empty
string, booleans to `"True"`/`"False"`; floats and dates are rendered by an
injective textual form (the exact digits of `str(float)` are irrelevant to the
claims, only injectivity and determinism matter). -/
def pyCanon : PyVal → String
  | PyVal.vnone => ""
  | PyVal.vstr s => s
  | PyVal.vbool b => if b then "True" else "False"
  | PyVal.vfloat q => "f" ++ toString q
  | PyVal.vdate d => "d" ++ toString d

/-- `"||".join(parts)`. -/
def joinSep : List String → String
  | [] => ""
  | [s] => s
  | s :: r :: rest => s ++ "||" ++ joinSep (r :: rest)

/-- `md5_hash` from the scripts, modelled as the canonical MD5 preimage:
`"||".join("" if v is None else str(v) for v in values)`. The actual digest is a
fixed function of this string, so digest equality coincides with equality of
this preimage (up to MD5 collisions, which are not modelled). -/
def md5_hash (values : List PyVal) : String := joinSep (values.map pyCanon)

/-- Python dict lookup on an association list (`m[k]` / `k in m`). -/
def lookupKey {α : Type} : List (String × α) → String → Option α
  | [], _ => Option.none
  | p :: rest, k => if p.1 = k then Option.some p.2 else lookupKey rest k

/-- Python dict assignment `m[k] = v`: replaces in place if the key is present,
otherwise appends (insertion order preserved). -/
def dictUpd {α : Type} : List (String × α) → String → α → List (String × α)
  | [], k, v => [(k, v)]
  | p :: rest, k, v => if p.1 = k then (k, v) :: rest else p :: dictUpd rest k v

/-- The key list of an association list (`m.keys()`). -/
def keysOf {α : Type} (m : List (String × α)) : List String := m.map Prod.fst

/-- The last element of a list, if any. -/
def lastOpt {α : Type} : List α → Option α
  | [] => Option.none
  | [a] => Option.some a
  | _ :: b :: t => lastOpt (b :: t)

/-- A row of `etl.batch_run`. -/
structure BatchRun where
  batch_id : Int
  dataset : String
  as_of_date : Nat
  status : String
  deriving DecidableEq

/-- `get_latest_batch_id`: `select batch_id from etl.batch_run where dataset=… and
as_of_date=… and status='SUCCESS' order by batch_id desc limit 1`, raising when no
row matches. `order by … desc limit 1` is the maximum of the matching ids. -/
def get_latest_batch_id (batches : List BatchRun) (dataset : String) (as_of : Nat) :
    Except String Int :=
  match (batches.filter (fun b =>
      decide (b.dataset = dataset ∧ b.as_of_date = as_of ∧ b.status = "SUCCESS"))).map
      (fun b => b.batch_id) with
  | [] => Except.error ("No SUCCESS batch found for dataset=" ++ dataset)
  | i :: rest => Except.ok (rest.foldl max i)

/-- `try: … conn.commit() except: conn.rollback(); raise` under the database's
atomic-transaction guarantee: the pair is (reported result, committed history).
On success the whole run's writes are visible; on any error the committed
history is exactly the input. -/
def commitOrRollback {σ : Type} (h : σ) : Except String σ → Except String σ × σ
  | Except.ok h2 => (Except.ok h2, h2)
  | Except.error e => (Except.error e, h)

/-! ### gold.salarie_histo (`apply_gold_salarie.py`) -/

/-- The business attributes of a salarie version (`nni, nom, prenom`), nullable
as in the database. -/
structure SalAttrs where
  nni : Option String
  nom : Option String
  prenom : Option String
  deriving DecidableEq

/-- One row of `gold.salarie_histo`. -/
structure SalRow where
  ref_salarie : String
  nni : Option String
  nom : Option String
  prenom : Option String
  valid_from : Nat
  valid_to : Nat
  is_current : Bool
  is_deleted : Bool
  record_hash : String
  batch_id : Int
  deriving DecidableEq

abbrev SalHisto := List SalRow

/-- `date '9999-12-31'`, the open-ended sentinel. -/
def openEnd : Nat := 99991231

/-- Wrap an optional string the way it reaches `md5_hash`. -/
def ov : Option String → PyVal
  | Option.none => PyVal.vnone
  | Option.some s => PyVal.vstr s

/-- The dict value built by `fetch_gold_current` for one current row. -/
structure CurInfo where
  nni : Option String
  nom : Option String
  prenom : Option String
  record_hash : String
  is_deleted : Bool
  deriving DecidableEq

def toCurInfo (r : SalRow) : CurInfo :=
  { nni := r.nni, nom := r.nom, prenom := r.prenom,
    record_hash := r.record_hash, is_deleted := r.is_deleted }

/-- `fetch_gold_current`: select the `is_current = true` rows and build the dict
`out[ref_salarie] = {...}` in row order (last write wins on duplicate keys). -/
def fetch_gold_current (h : SalHisto) : List (String × CurInfo) :=
  (h.filter (fun r => r.is_current)).foldl
    (fun m r => dictUpd m r.ref_salarie (toCurInfo r)) []

/-- `md5_hash([row["nni"], row["nom"], row["prenom"], is_deleted])`. -/
def salHash (a : SalAttrs) (d : Bool) : String :=
  md5_hash [ov a.nni, ov a.nom, ov a.prenom, PyVal.vbool d]

/-- `insert_version`: the freshly inserted row — attributes from `row`,
`valid_from = as_of`, `valid_to = date '9999-12-31'`, `is_current = true`, the
given deletion flag, `record_hash` recomputed from (attributes, flag), and the
provenance `batch_id`. -/
def insert_version (k : String) (a : SalAttrs) (as_of : Nat) (batch_id : Int)
    (is_deleted : Bool) : SalRow :=
  { ref_salarie := k, nni := a.nni, nom := a.nom, prenom := a.prenom,
    valid_from := as_of, valid_to := openEnd, is_current := true,
    is_deleted := is_deleted, record_hash := salHash a is_deleted,
    batch_id := batch_id }

/-- `close_current`: `update gold.salarie_histo set valid_to = as_of,
is_current = false where ref_salarie = k and is_current = true`. Every matching
row is updated; the affected-row count is not inspected. -/
def close_current (as_of : Nat) (k : String) (h : SalHisto) : SalHisto :=
  h.map (fun r =>
    if r.is_current = true ∧ r.ref_salarie = k then
      { r with valid_to := as_of, is_current := false }
    else r)

/-- An operation emitted by the diff: close the current version of a key, or
insert a new version. -/
inductive Op
  | close (k : String)
  | insert (k : String) (a : SalAttrs) (d : Bool)
  deriving DecidableEq

def opKey : Op → String
  | Op.close k => k
  | Op.insert k _ _ => k

def applyOp (as_of : Nat) (batch_id : Int) (h : SalHisto) : Op → SalHisto
  | Op.close k => close_current as_of k h
  | Op.insert k a d => h ++ [insert_version k a as_of batch_id d]

def applyOps (as_of : Nat) (batch_id : Int) (h : SalHisto) (ops : List Op) : SalHisto :=
  ops.foldl (applyOp as_of batch_id) h

/-- The pass-A body for one silver key (`apply_gold_salarie.py` lines 175–186):
new key → insert; changed hash or tombstoned current → close then insert;
otherwise no operation. -/
def classifySal (gold : List (String × CurInfo)) (k : String) (a : SalAttrs) : List Op :=
  match lookupKey gold k with
  | Option.none => [Op.insert k a false]
  | Option.some cur =>
      if cur.record_hash ≠ salHash a false ∨ cur.is_deleted = true then
        [Op.close k, Op.insert k a false]
      else []

/-- Pass A: iterate the silver snapshot. -/
def passASal (gold : List (String × CurInfo)) : List (String × SalAttrs) → List Op
  | [] => []
  | (k, a) :: rest => classifySal gold k a ++ passASal gold rest

/-- The tombstone attribute set: the last known values carried forward from the
current version (`apply_gold_salarie.py` lines 195–200). -/
def tombAttrs (cur : CurInfo) : SalAttrs :=
  { nni := cur.nni, nom := cur.nom, prenom := cur.prenom }

/-- Pass B (lines 188–201): keys current in gold but absent from silver; a
non-tombstoned current version is closed and reinserted as a tombstone. -/
def passBSal (sk : List String) : List (String × CurInfo) → List Op
  | [] => []
  | (k, cur) :: rest =>
      (if k ∈ sk then []
       else if cur.is_deleted = true then []
       else [Op.close k, Op.insert k (tombAttrs cur) true]) ++ passBSal sk rest

/-- The full diff of one run: pass A over the silver snapshot, then pass B over
the gold current set minus the silver keys. -/
def reconcileSal (silver : List (String × SalAttrs)) (gold : List (String × CurInfo)) :
    List Op :=
  passASal gold silver ++ passBSal (keysOf silver) gold

/-- `main` of `apply_gold_salarie.py` up to `conn.commit()`: resolve the batch,
fetch both record sets, and apply the diff. The only raising step for this
entity is the batch lookup. -/
def runSalarie (batches : List BatchRun) (dataset : String)
    (silver : List (String × SalAttrs)) (h : SalHisto) (as_of : Nat) :
    Except String SalHisto :=
  match get_latest_batch_id batches dataset as_of with
  | Except.error e => Except.error e
  | Except.ok b =>
      Except.ok (applyOps as_of b h (reconcileSal silver (fetch_gold_current h)))

/-- One whole invocation of the salarie script: run inside the transaction,
commit on success, roll back on error. -/
def runSalarieTx (batches : List BatchRun) (dataset : String)
    (silver : List (String × SalAttrs)) (h : SalHisto) (as_of : Nat) :
    Except String SalHisto × SalHisto :=
  commitOrRollback h (runSalarie batches dataset silver h as_of)

/-- The current rows for key `k`: the rows `fetch_gold_current` sees, restricted
to `k`. Invariant I1 says this list has at most one element. -/
def curFor (h : SalHisto) (k : String) : List SalRow :=
  (h.filter (fun r => r.is_current)).filter (fun r => decide (r.ref_salarie = k))

/-- Invariant I1: at most one current row per key. -/
def InvI1 (h : SalHisto) : Prop := ∀ k : String, (curFor h k).length ≤ 1

/-- The operations of a run that concern one key. -/
def opsFor (k : String) (ops : List Op) : List Op :=
  ops.filter (fun op => decide (opKey op = k))

/-! ### gold.paiement_histo (`gold/apply_gold_paiement.py`) -/

/-- Wrap an optional float (Python `float` modelled as `Rat`) for hashing. -/
def ovF : Option Rat → PyVal
  | Option.none => PyVal.vnone
  | Option.some q => PyVal.vfloat q

/-- Wrap an optional date for hashing. -/
def ovD : Option Nat → PyVal
  | Option.none => PyVal.vnone
  | Option.some d => PyVal.vdate d

/-- Python `str(x)`: identity on strings, the literal `"None"` on `None`. -/
def pyStr : Option String → String
  | Option.none => "None"
  | Option.some s => s

/-- Python `float(x)`: identity on a number, `TypeError` on `None`. -/
def pyFloat : Option Rat → Except String Rat
  | Option.none =>
      Except.error "TypeError: float() argument must be a string or a real number, not NoneType"
  | Option.some q => Except.ok q

/-- Business attributes of a paiement version, nullable as in the database. -/
structure PaiAttrs where
  ref_salarie : Option String
  montant_paye : Option Rat
  rib_salarie : Option String
  date_paiement : Option Nat
  ref_demande_avance : Option String
  deriving DecidableEq

/-- One row of `gold.paiement_histo`. -/
structure PaiRow where
  ref_paiement : String
  ref_salarie : Option String
  montant_paye : Option Rat
  rib_salarie : Option String
  date_paiement : Option Nat
  ref_demande_avance : Option String
  valid_from : Nat
  valid_to : Nat
  is_current : Bool
  is_deleted : Bool
  record_hash : String
  batch_id : Int
  deriving DecidableEq

abbrev PaiHisto := List PaiRow

/-- The dict value built by the paiement `fetch_gold_current`. -/
structure PaiCur where
  ref_salarie : Option String
  montant_paye : Option Rat
  rib_salarie : Option String
  date_paiement : Option Nat
  ref_demande_avance : Option String
  record_hash : String
  is_deleted : Bool
  deriving DecidableEq

def toPaiCur (r : PaiRow) : PaiCur :=
  { ref_salarie := r.ref_salarie, montant_paye := r.montant_paye,
    rib_salarie := r.rib_salarie, date_paiement := r.date_paiement,
    ref_demande_avance := r.ref_demande_avance,
    record_hash := r.record_hash, is_deleted := r.is_deleted }

def fetch_pai_current (h : PaiHisto) : List (String × PaiCur) :=
  (h.filter (fun r => r.is_current)).foldl
    (fun m r => dictUpd m r.ref_paiement (toPaiCur r)) []

/-- `md5_hash([ref_salarie, montant_paye, rib_salarie, date_paiement,
ref_demande_avance, is_deleted])`. -/
def paiHash (a : PaiAttrs) (d : Bool) : String :=
  md5_hash [ov a.ref_salarie, ovF a.montant_paye, ov a.rib_salarie,
    ovD a.date_paiement, ov a.ref_demande_avance, PyVal.vbool d]

def pai_insert_version (k : String) (a : PaiAttrs) (as_of : Nat) (batch_id : Int)
    (is_deleted : Bool) : PaiRow :=
  { ref_paiement := k, ref_salarie := a.ref_salarie, montant_paye := a.montant_paye,
    rib_salarie := a.rib_salarie, date_paiement := a.date_paiement,
    ref_demande_avance := a.ref_demande_avance,
    valid_from := as_of, valid_to := openEnd, is_current := true,
    is_deleted := is_deleted, record_hash := paiHash a is_deleted,
    batch_id := batch_id }

def pai_close_current (as_of : Nat) (k : String) (h : PaiHisto) : PaiHisto :=
  h.map (fun r =>
    if r.is_current = true ∧ r.ref_paiement = k then
      { r with valid_to := as_of, is_current := false }
    else r)

inductive PaiOp
  | close (k : String)
  | insert (k : String) (a : PaiAttrs) (d : Bool)
  deriving DecidableEq

def applyPaiOp (as_of : Nat) (batch_id : Int) (h : PaiHisto) : PaiOp → PaiHisto
  | PaiOp.close k => pai_close_current as_of k h
  | PaiOp.insert k a d => h ++ [pai_insert_version k a as_of batch_id d]

def applyPaiOps (as_of : Nat) (batch_id : Int) (h : PaiHisto) (ops : List PaiOp) :
    PaiHisto :=
  ops.foldl (applyPaiOp as_of batch_id) h

/-- Pass-A body for one paiement silver key (`apply_gold_paiement.py` 189–205). -/
def classifyPai (gold : List (String × PaiCur)) (k : String) (a : PaiAttrs) : List PaiOp :=
  match lookupKey gold k with
  | Option.none => [PaiOp.insert k a false]
  | Option.some cur =>
      if cur.record_hash ≠ paiHash a false ∨ cur.is_deleted = true then
        [PaiOp.close k, PaiOp.insert k a false]
      else []

def passAPai (gold : List (String × PaiCur)) : List (String × PaiAttrs) → List PaiOp
  | [] => []
  | (k, a) :: rest => classifyPai gold k a ++ passAPai gold rest

/-- The paiement tombstone dict (`apply_gold_paiement.py` 212–219): `str(...)`
coercions on the reference fields and an unguarded `float(...)` on
`montant_paye`, which raises `TypeError` when the stored amount is null. -/
def buildTombPai (cur : PaiCur) : Except String PaiAttrs :=
  match pyFloat cur.montant_paye with
  | Except.error e => Except.error e
  | Except.ok q =>
      Except.ok
        { ref_salarie := Option.some (pyStr cur.ref_salarie),
          montant_paye := Option.some q,
          rib_salarie := Option.some (pyStr cur.rib_salarie),
          date_paiement := cur.date_paiement,
          ref_demande_avance := Option.some (pyStr cur.ref_demande_avance) }

/-- Pass B for paiement (lines 207–220); building the tombstone can raise. -/
def passBPai (sk : List String) : List (String × PaiCur) → Except String (List PaiOp)
  | [] => Except.ok []
  | (k, cur) :: rest =>
      if k ∈ sk then passBPai sk rest
      else if cur.is_deleted = true then passBPai sk rest
      else
        match buildTombPai cur with
        | Except.error e => Except.error e
        | Except.ok a =>
            match passBPai sk rest with
            | Except.error e => Except.error e
            | Except.ok ops => Except.ok (PaiOp.close k :: PaiOp.insert k a true :: ops)

/-- The paiement diff. In the script the operations are executed as they are
computed and a pass-B `TypeError` aborts with all prior writes still
uncommitted, so for the committed history computing the full operation list
first is equivalent. -/
def reconcilePai (silver : List (String × PaiAttrs)) (gold : List (String × PaiCur)) :
    Except String (List PaiOp) :=
  match passBPai (keysOf silver) gold with
  | Except.error e => Except.error e
  | Except.ok bops => Except.ok (passAPai gold silver ++ bops)

/-- `main` of `apply_gold_paiement.py` up to `conn.commit()`. -/
def runPaiement (batches : List BatchRun) (dataset : String)
    (silver : List (String × PaiAttrs)) (h : PaiHisto) (as_of : Nat) :
    Except String PaiHisto :=
  match get_latest_batch_id batches dataset as_of with
  | Except.error e => Except.error e
  | Except.ok b =>
      match reconcilePai silver (fetch_pai_current h) with
      | Except.error e => Except.error e
      | Except.ok ops => Except.ok (applyPaiOps as_of b h ops)

def runPaiementTx (batches : List BatchRun) (dataset : String)
    (silver : List (String × PaiAttrs)) (h : PaiHisto) (as_of : Nat) :
    Except String PaiHisto × PaiHisto :=
  commitOrRollback h (runPaiement batches dataset silver h as_of)

/-! ### gold.demande_avance_histo (`apply_gold_demande_avance.py`) -/

/-- Business attributes of an enriched demande_avance version. -/
structure DemAttrs where
  ref_salarie : Option String
  montant_demande : Option Rat
  montant_paye : Option Rat
  date_paiement : Option Nat
  ref_paiement : Option String
  deriving DecidableEq

/-- One row of `gold.demande_avance_histo`. -/
structure DemRow where
  ref_demande_avance : String
  ref_salarie : Option String
  montant_demande : Option Rat
  montant_paye : Option Rat
  date_paiement : Option Nat
  ref_paiement : Option String
  valid_from : Nat
  valid_to : Nat
  is_current : Bool
  is_deleted : Bool
  record_hash : String
  batch_id : Int
  deriving DecidableEq

abbrev DemHisto := List DemRow

/-- The dict value built by the demande_avance `fetch_gold_current`. -/
structure DemCur where
  ref_salarie : Option String
  montant_demande : Option Rat
  montant_paye : Option Rat
  date_paiement : Option Nat
  ref_paiement : Option String
  record_hash : String
  is_deleted : Bool
  deriving DecidableEq

def toDemCur (r : DemRow) : DemCur :=
  { ref_salarie := r.ref_salarie, montant_demande := r.montant_demande,
    montant_paye := r.montant_paye, date_paiement := r.date_paiement,
    ref_paiement := r.ref_paiement,
    record_hash := r.record_hash, is_deleted := r.is_deleted }

def fetch_dem_current (h : DemHisto) : List (String × DemCur) :=
  (h.filter (fun r => r.is_current)).foldl
    (fun m r => dictUpd m r.ref_demande_avance (toDemCur r)) []

def demHash (a : DemAttrs) (d : Bool) : String :=
  md5_hash [ov a.ref_salarie, ovF a.montant_demande, ovF a.montant_paye,
    ovD a.date_paiement, ov a.ref_paiement, PyVal.vbool d]

def dem_insert_version (k : String) (a : DemAttrs) (as_of : Nat) (batch_id : Int)
    (is_deleted : Bool) : DemRow :=
  { ref_demande_avance := k, ref_salarie := a.ref_salarie,
    montant_demande := a.montant_demande, montant_paye := a.montant_paye,
    date_paiement := a.date_paiement, ref_paiement := a.ref_paiement,
    valid_from := as_of, valid_to := openEnd, is_current := true,
    is_deleted := is_deleted, record_hash := demHash a is_deleted,
    batch_id := batch_id }

def dem_close_current (as_of : Nat) (k : String) (h : DemHisto) : DemHisto :=
  h.map (fun r =>
    if r.is_current = true ∧ r.ref_demande_avance = k then
      { r with valid_to := as_of, is_current := false }
    else r)

inductive DemOp
  | close (k : String)
  | insert (k : String) (a : DemAttrs) (d : Bool)
  deriving DecidableEq

def applyDemOp (as_of : Nat) (batch_id : Int) (h : DemHisto) : DemOp → DemHisto
  | DemOp.close k => dem_close_current as_of k h
  | DemOp.insert k a d => h ++ [dem_insert_version k a as_of batch_id d]

def applyDemOps (as_of : Nat) (batch_id : Int) (h : DemHisto) (ops : List DemOp) :
    DemHisto :=
  ops.foldl (applyDemOp as_of batch_id) h

def classifyDem (gold : List (String × DemCur)) (k : String) (a : DemAttrs) : List DemOp :=
  match lookupKey gold k with
  | Option.none => [DemOp.insert k a false]
  | Option.some cur =>
      if cur.record_hash ≠ demHash a false ∨ cur.is_deleted = true then
        [DemOp.close k, DemOp.insert k a false]
      else []

def passADem (gold : List (String × DemCur)) : List (String × DemAttrs) → List DemOp
  | [] => []
  | (k, a) :: rest => classifyDem gold k a ++ passADem gold rest

/-- The demande_avance tombstone dict (`apply_gold_demande_avance.py` 223–230):
`montant_demande` goes through an unguarded `float(...)` while `montant_paye`
and `ref_paiement` are null-guarded. -/
def buildTombDem (cur : DemCur) : Except String DemAttrs :=
  match pyFloat cur.montant_demande with
  | Except.error e => Except.error e
  | Except.ok q =>
      Except.ok
        { ref_salarie := Option.some (pyStr cur.ref_salarie),
          montant_demande := Option.some q,
          montant_paye := cur.montant_paye,
          date_paiement := cur.date_paiement,
          ref_paiement := cur.ref_paiement }

def passBDem (sk : List String) : List (String × DemCur) → Except String (List DemOp)
  | [] => Except.ok []
  | (k, cur) :: rest =>
      if k ∈ sk then passBDem sk rest
      else if cur.is_deleted = true then passBDem sk rest
      else
        match buildTombDem cur with
        | Except.error e => Except.error e
        | Except.ok a =>
            match passBDem sk rest with
            | Except.error e => Except.error e
            | Except.ok ops => Except.ok (DemOp.close k :: DemOp.insert k a true :: ops)

def reconcileDem (silver : List (String × DemAttrs)) (gold : List (String × DemCur)) :
    Except String (List DemOp) :=
  match passBDem (keysOf silver) gold with
  | Except.error e => Except.error e
  | Except.ok bops => Except.ok (passADem gold silver ++ bops)

def runDemande (batches : List BatchRun) (dataset : String)
    (silver : List (String × DemAttrs)) (h : DemHisto) (as_of : Nat) :
    Except String DemHisto :=
  match get_latest_batch_id batches dataset as_of with
  | Except.error e => Except.error e
  | Except.ok b =>
      match reconcileDem silver (fetch_dem_current h) with
      | Except.error e => Except.error e
      | Except.ok ops => Except.ok (applyDemOps as_of b h ops)

def runDemandeTx (batches : List BatchRun) (dataset : String)
    (silver : List (String × DemAttrs)) (h : DemHisto) (as_of : Nat) :
    Except String DemHisto × DemHisto :=
  commitOrRollback h (runDemande batches dataset silver h as_of)

/-! ### Frame and freshness predicates for the writer -/

/-- Frame relation between a pre-run row and its post-run counterpart: either
untouched, or only `valid_to`/`is_current` rewritten by a close. -/
def frameRel (as_of : Nat) (r0 r : SalRow) : Prop :=
  r = r0 ∨ r = { r0 with valid_to := as_of, is_current := false }

/-- A row freshly written by `insert_version` during the run with as-of date
`as_of` and provenance `batch_id = b`: open-ended, current, and carrying the
hash of its own attributes and deletion flag. -/
def freshRow (as_of : Nat) (b : Int) (r : SalRow) : Prop :=
  r.valid_from = as_of ∧ r.valid_to = openEnd ∧ r.is_current = true ∧
    r.batch_id = b ∧
    r.record_hash = salHash { nni := r.nni, nom := r.nom, prenom := r.prenom } r.is_deleted

/-- A canonical value free of the reserved separator character. -/
def pipeFree (s : String) : Prop := ¬ ('|' ∈ s.data)

instance pipeFreeDec (s : String) : Decidable (pipeFree s) :=
  inferInstanceAs (Decidable (¬ ('|' ∈ s.data)))

/-! ### Concrete instances used by witnesses and counterexamples -/

/-- A successful batch-registry row for the salarie dataset. -/
def batchW : BatchRun :=
  { batch_id := 7, dataset := "salarie", as_of_date := 20240101, status := "SUCCESS" }

/-- A sample silver attribute set for key `A`. -/
def aW : SalAttrs := { nni := Option.some "n", nom := Option.some "x", prenom := Option.some "y" }

/-- A one-key silver snapshot. -/
def silverW : List (String × SalAttrs) := [("A", aW)]

/-- A current gold row for `A` whose stored hash matches `aW` (non-deleted). -/
def rowW : SalRow := insert_version "A" aW 20231201 3 false

/-- A stale current gold row for `A` (hash does not match `aW`). -/
def rowStale : SalRow :=
  { ref_salarie := "A", nni := Option.some "old", nom := Option.some "x",
    prenom := Option.some "y", valid_from := 20231201, valid_to := openEnd,
    is_current := true, is_deleted := false, record_hash := "stale", batch_id := 3 }

/-- A corrupted history: two simultaneously-current rows for the same key `A`,
violating invariant I1 before the run starts. -/
def h0C5 : SalHisto := [rowStale, rowStale]

/-- A paiement attribute set with a null amount, as produced by a silver row
whose `montant_paye` is NULL (the silver fetch guards its `float()` call). -/
def paiAttrsC9 : PaiAttrs :=
  { ref_salarie := Option.some "S1", montant_paye := Option.none,
    rib_salarie := Option.some "R1", date_paiement := Option.some 11,
    ref_demande_avance := Option.some "D1" }

/-- The history produced by a first paiement run that ingested `paiAttrsC9`:
one current, non-deleted version of key `P1` with a null `montant_paye`. -/
def hPai : PaiHisto := [pai_insert_version "P1" paiAttrsC9 1 1 false]

/-- A demande_avance attribute set with a null `montant_demande` (nullable in
silver; the silver fetch guards its own `float()` call). -/
def demAttrsC9 : DemAttrs :=
  { ref_salarie := Option.some "S1", montant_demande := Option.none,
    montant_paye := Option.some 5, date_paiement := Option.some 11,
    ref_paiement := Option.some "P1" }

/-- History produced by a first demande_avance run that ingested `demAttrsC9`. -/
def hDem : DemHisto := [dem_insert_version "D1" demAttrsC9 1 1 false]

/-! ### Dictionary lemmas -/

theorem lastOpt_isSome {α : Type} (a : α) (l : List α) :
    (lastOpt (a :: l)).isSome = true := by
  induction l generalizing a with
  | nil => rfl
  | cons b t ih => exact ih b

theorem lastOpt_cons {α : Type} (a : α) (l : List α) :
    lastOpt (a :: l) = match lastOpt l with
      | Option.some x => Option.some x
      | Option.none => Option.some a := by
  cases l with
  | nil => rfl
  | cons b t =>
      cases hl : lastOpt (b :: t) with
      | none => exact absurd (congrArg Option.isSome hl) (by simp [lastOpt_isSome])
      | some x => simpa [lastOpt] using hl

theorem lastOpt_append_single {α : Type} (l : List α) (a : α) :
    lastOpt (l ++ [a]) = Option.some a := by
  induction l with
  | nil => rfl
  | cons b t ih =>
      cases t with
      | nil => rfl
      | cons c t2 => exact ih

theorem lastOpt_eq_none {α : Type} {l : List α} (h : lastOpt l = Option.none) : l = [] := by
  cases l with
  | nil => rfl
  | cons a t => exact absurd (congrArg Option.isSome h) (by simp [lastOpt_isSome])

theorem lookupKey_dictUpd {α : Type} (m : List (String × α)) (k k2 : String) (v : α) :
    lookupKey (dictUpd m k v) k2 = if k2 = k then Option.some v else lookupKey m k2 := by
  induction m with
  | nil =>
      simp only [dictUpd, lookupKey]
      by_cases h : k2 = k
      · simp [h]
      · have h2 : ¬ k = k2 := fun e => h e.symm
        simp [h, h2]
  | cons p rest ih =>
      obtain ⟨p1, p2⟩ := p
      simp only [dictUpd]
      by_cases hp : p1 = k
      · subst hp
        simp only [if_pos rfl, lookupKey]
        by_cases h : k2 = p1
        · subst h
          simp [lookupKey]
        · have h2 : ¬ p1 = k2 := fun e => h e.symm
          simp [lookupKey, h, h2]
      · simp only [if_neg hp, lookupKey, ih]
        by_cases hq : p1 = k2
        · have hne : ¬ k2 = k := by
            intro e
            exact hp (hq.trans e)
          simp [hq, hne]
        · simp [hq]

theorem keysOf_dictUpd {α : Type} (m : List (String × α)) (k : String) (v : α) :
    keysOf (dictUpd m k v)
      = if k ∈ keysOf m then keysOf m else keysOf m ++ [k] := by
  induction m with
  | nil => simp [dictUpd, keysOf]
  | cons p rest ih =>
      obtain ⟨p1, p2⟩ := p
      simp only [dictUpd]
      by_cases hp : p1 = k
      · subst hp
        simp [keysOf]
      · have hkp : ¬ k = p1 := fun e => hp e.symm
        simp only [if_neg hp]
        have hcons : keysOf ((p1, p2) :: dictUpd rest k v) = p1 :: keysOf (dictUpd rest k v) := rfl
        rw [hcons, ih]
        by_cases hk : k ∈ keysOf rest
        · have : k ∈ keysOf ((p1, p2) :: rest) := List.mem_cons_of_mem _ hk
          simp only [hk, if_true, this, if_true]
          rfl
        · have : ¬ k ∈ keysOf ((p1, p2) :: rest) := by
            intro hmem
            rcases List.mem_cons.mp hmem with he | hr
            · exact hkp he
            · exact hk hr
          simp only [hk, if_false, this, if_false]
          rfl

theorem nodup_keys_dictUpd {α : Type} {m : List (String × α)} (k : String) (v : α)
    (h : (keysOf m).Nodup) : (keysOf (dictUpd m k v)).Nodup := by
  rw [keysOf_dictUpd]
  by_cases hk : k ∈ keysOf m
  · simpa [hk] using h
  · simp only [hk, if_false]
    simpa [List.nodup_append] using ⟨h, hk⟩

theorem nodup_keys_foldl {ρ α : Type} (key : ρ → String) (info : ρ → α)
    (rows : List ρ) (m : List (String × α)) (h : (keysOf m).Nodup) :
    (keysOf (rows.foldl (fun m2 r => dictUpd m2 (key r) (info r)) m)).Nodup := by
  induction rows generalizing m with
  | nil => exact h
  | cons r rest ih => exact ih _ (nodup_keys_dictUpd _ _ h)

theorem lookupKey_foldl {ρ α : Type} (key : ρ → String) (info : ρ → α)
    (rows : List ρ) (m : List (String × α)) (k : String) :
    lookupKey (rows.foldl (fun m2 r => dictUpd m2 (key r) (info r)) m) k
      = match lastOpt (rows.filter (fun r => decide (key r = k))) with
        | Option.some r => Option.some (info r)
        | Option.none => lookupKey m k := by
  induction rows generalizing m with
  | nil => rfl
  | cons r rest ih =>
      rw [List.foldl_cons, ih]
      by_cases h : key r = k
      · rw [List.filter_cons_of_pos (by simpa using h), lastOpt_cons]
        cases hl : lastOpt (rest.filter (fun r => decide (key r = k))) with
        | none => simp [lookupKey_dictUpd, h]
        | some x => rfl
      · rw [List.filter_cons_of_neg (by simpa using h)]
        cases hl : lastOpt (rest.filter (fun r => decide (key r = k))) with
        | none =>
            have h2 : ¬ k = key r := fun e => h e.symm
            simp [lookupKey_dictUpd, h2]
        | some x => rfl

theorem lookupKey_eq_some_of_mem {α : Type} {m : List (String × α)} {k : String} {v : α}
    (hd : (keysOf m).Nodup) (hm : (k, v) ∈ m) : lookupKey m k = Option.some v := by
  induction m with
  | nil => cases hm
  | cons p rest ih =>
      obtain ⟨p1, p2⟩ := p
      have hd2 : (p1 :: keysOf rest).Nodup := hd
      rcases List.mem_cons.mp hm with he | hr
      · injection he with h1 h2
        subst h1; subst h2
        simp [lookupKey]
      · have hne : ¬ p1 = k := by
          intro e
          subst e
          have : p1 ∈ keysOf rest := List.mem_map_of_mem Prod.fst hr
          exact (List.nodup_cons.mp hd2).1 this
        simp only [lookupKey, if_neg hne]
        exact ih (List.nodup_cons.mp hd2).2 hr

theorem mem_of_lookupKey {α : Type} {m : List (String × α)} {k : String} {v : α}
    (h : lookupKey m k = Option.some v) : (k, v) ∈ m := by
  induction m with
  | nil => cases h
  | cons p rest ih =>
      obtain ⟨p1, p2⟩ := p
      by_cases hp : p1 = k
      · subst hp
        simp only [lookupKey, if_pos rfl] at h
        obtain rfl : p2 = v := by injection h
        exact List.mem_cons_self _ _
      · exact List.mem_cons_of_mem _ (ih (by simpa [lookupKey, hp] using h))

theorem not_mem_of_lookupKey_none {α : Type} {m : List (String × α)} {k : String}
    (h : lookupKey m k = Option.none) (v : α) : ¬ (k, v) ∈ m := by
  intro hm
  induction m with
  | nil => cases hm
  | cons p rest ih =>
      obtain ⟨p1, p2⟩ := p
      by_cases hp : p1 = k
      · simp [lookupKey, hp] at h
      · rcases List.mem_cons.mp hm with he | hr
        · exact hp (by injection he.symm)
        · exact ih (by simpa [lookupKey, hp] using h) hr

/-! ### Current-row bookkeeping lemmas for the salarie writer -/

theorem fetch_lookup (h : SalHisto) (k : String) :
    lookupKey (fetch_gold_current h) k = Option.map toCurInfo (lastOpt (curFor h k)) := by
  have hf := lookupKey_foldl (fun r : SalRow => r.ref_salarie) toCurInfo
      (h.filter (fun r => r.is_current)) [] k
  refine hf.trans ?_
  rw [show (h.filter (fun r => r.is_current)).filter (fun r => decide (r.ref_salarie = k))
      = curFor h k from rfl]
  cases lastOpt (curFor h k) <;> rfl

theorem nodup_fetch (h : SalHisto) : (keysOf (fetch_gold_current h)).Nodup :=
  nodup_keys_foldl (fun r : SalRow => r.ref_salarie) toCurInfo
    (h.filter (fun r => r.is_current)) [] List.nodup_nil

theorem curFor_cons (x : SalRow) (l : SalHisto) (k : String) :
    curFor (x :: l) k
      = (if x.is_current = true ∧ x.ref_salarie = k then [x] else []) ++ curFor l k := by
  by_cases h1 : x.is_current = true
  · by_cases h2 : x.ref_salarie = k
    · simp [curFor, h1, h2]
    · simp [curFor, h1, h2]
  · simp [curFor, h1]

theorem close_current_cons (as_of : Nat) (k : String) (x : SalRow) (l : SalHisto) :
    close_current as_of k (x :: l)
      = (if x.is_current = true ∧ x.ref_salarie = k then
          { x with valid_to := as_of, is_current := false } else x)
        :: close_current as_of k l := rfl

theorem curFor_close_self (as_of : Nat) (k : String) (h : SalHisto) :
    curFor (close_current as_of k h) k = [] := by
  induction h with
  | nil => rfl
  | cons x l ih =>
      rw [close_current_cons]
      by_cases hc : x.is_current = true ∧ x.ref_salarie = k
      · rw [if_pos hc, curFor_cons]
        simpa using ih
      · rw [if_neg hc, curFor_cons, if_neg hc]
        simpa using ih

theorem curFor_close_other (as_of : Nat) (k k2 : String) (h : SalHisto)
    (hne : ¬ k2 = k) : curFor (close_current as_of k h) k2 = curFor h k2 := by
  induction h with
  | nil => rfl
  | cons x l ih =>
      rw [close_current_cons]
      by_cases hc : x.is_current = true ∧ x.ref_salarie = k
      · have hx : ¬ (x.is_current = true ∧ x.ref_salarie = k2) := by
          intro hx2
          exact hne ((hx2.2.symm.trans hc.2))
        rw [if_pos hc, curFor_cons, curFor_cons x, if_neg hx, if_neg (by simpa using hx)]
        simp [ih]
      · rw [if_neg hc, curFor_cons, curFor_cons x, ih]

theorem curFor_append (l1 l2 : SalHisto) (k : String) :
    curFor (l1 ++ l2) k = curFor l1 k ++ curFor l2 k := by
  simp [curFor, List.filter_append]

theorem curFor_insert_self (h : SalHisto) (k : String) (a : SalAttrs) (as_of : Nat)
    (b : Int) (d : Bool) :
    curFor (h ++ [insert_version k a as_of b d]) k
      = curFor h k ++ [insert_version k a as_of b d] := by
  rw [curFor_append, curFor_cons]
  simp [insert_version, curFor]

theorem curFor_insert_other (h : SalHisto) (k k2 : String) (a : SalAttrs) (as_of : Nat)
    (b : Int) (d : Bool) (hne : ¬ k2 = k) :
    curFor (h ++ [insert_version k a as_of b d]) k2 = curFor h k2 := by
  rw [curFor_append, curFor_cons]
  have : ¬ ((insert_version k a as_of b d).is_current = true
      ∧ (insert_version k a as_of b d).ref_salarie = k2) := by
    intro hx
    exact hne (hx.2.symm.trans rfl)
  rw [if_neg this]
  simp [curFor]

theorem opsFor_cons (k : String) (op : Op) (ops : List Op) :
    opsFor k (op :: ops) = (if opKey op = k then [op] else []) ++ opsFor k ops := by
  by_cases h : opKey op = k
  · simp [opsFor, h]
  · simp [opsFor, h]

theorem opsFor_append (k : String) (l1 l2 : List Op) :
    opsFor k (l1 ++ l2) = opsFor k l1 ++ opsFor k l2 := by
  simp [opsFor, List.filter_append]

theorem applyOps_cons (as_of : Nat) (b : Int) (h : SalHisto) (op : Op) (ops : List Op) :
    applyOps as_of b h (op :: ops) = applyOps as_of b (applyOp as_of b h op) ops := rfl

theorem curFor_applyOp_other (as_of : Nat) (b : Int) (h : SalHisto) (op : Op)
    (k : String) (hne : ¬ opKey op = k) :
    curFor (applyOp as_of b h op) k = curFor h k := by
  cases op with
  | close k2 => exact curFor_close_other as_of k2 k h (fun e => hne e.symm)
  | insert k2 a d => exact curFor_insert_other h k2 k a as_of b d (fun e => hne e.symm)

theorem curFor_applyOps_nil (as_of : Nat) (b : Int) (k : String) :
    ∀ (ops : List Op) (h : SalHisto), opsFor k ops = []
      → curFor (applyOps as_of b h ops) k = curFor h k := by
  intro ops
  induction ops with
  | nil => intro h _; rfl
  | cons op rest ih =>
      intro h hops
      rw [opsFor_cons] at hops
      by_cases hk : opKey op = k
      · rw [if_pos hk] at hops
        cases hops
      · rw [if_neg hk, List.nil_append] at hops
        rw [applyOps_cons, ih _ hops, curFor_applyOp_other as_of b h op k hk]

theorem curFor_applyOps_insert (as_of : Nat) (b : Int) (k : String) (a : SalAttrs) (d : Bool) :
    ∀ (ops : List Op) (h : SalHisto), opsFor k ops = [Op.insert k a d]
      → curFor (applyOps as_of b h ops) k
          = curFor h k ++ [insert_version k a as_of b d] := by
  intro ops
  induction ops with
  | nil => intro h hops; cases hops
  | cons op rest ih =>
      intro h hops
      rw [opsFor_cons] at hops
      by_cases hk : opKey op = k
      · rw [if_pos hk, List.singleton_append] at hops
        have hop : op = Op.insert k a d := (List.cons.injEq _ _ _ _ ▸ hops).1
        have hrest : opsFor k rest = [] := by
          injection hops
        subst hop
        rw [applyOps_cons, curFor_applyOps_nil as_of b k rest _ hrest]
        exact curFor_insert_self h k a as_of b d
      · rw [if_neg hk, List.nil_append] at hops
        rw [applyOps_cons, ih _ hops, curFor_applyOp_other as_of b h op k hk]

theorem curFor_applyOps_close_insert (as_of : Nat) (b : Int) (k : String) (a : SalAttrs)
    (d : Bool) :
    ∀ (ops : List Op) (h : SalHisto), opsFor k ops = [Op.close k, Op.insert k a d]
      → curFor (applyOps as_of b h ops) k = [insert_version k a as_of b d] := by
  intro ops
  induction ops with
  | nil => intro h hops; cases hops
  | cons op rest ih =>
      intro h hops
      rw [opsFor_cons] at hops
      by_cases hk : opKey op = k
      · rw [if_pos hk, List.singleton_append] at hops
        have hop : op = Op.close k := (List.cons.injEq _ _ _ _ ▸ hops).1
        have hrest : opsFor k rest = [Op.insert k a d] := by
          injection hops
        subst hop
        rw [applyOps_cons, curFor_applyOps_insert as_of b k a d rest _ hrest]
        have : curFor (applyOp as_of b h (Op.close k)) k = [] :=
          curFor_close_self as_of k h
        rw [this]
        rfl
      · rw [if_neg hk, List.nil_append] at hops
        rw [applyOps_cons, ih _ hops]

/-! ### Per-key characterization of the emitted operations -/

theorem opsFor_classifySal (gold : List (String × CurInfo)) (k k2 : String) (a : SalAttrs) :
    opsFor k (classifySal gold k2 a)
      = if k2 = k then classifySal gold k2 a else [] := by
  by_cases he : k2 = k
  · subst he
    cases hl : lookupKey gold k2 with
    | none => simp [opsFor, classifySal, hl, opKey]
    | some cur =>
        by_cases hc : cur.record_hash ≠ salHash a false ∨ cur.is_deleted = true
        · simp [opsFor, classifySal, hl, hc, opKey]
        · simp [opsFor, classifySal, hl, hc, opKey]
  · cases hl : lookupKey gold k2 with
    | none => simp [opsFor, classifySal, hl, opKey, he]
    | some cur =>
        by_cases hc : cur.record_hash ≠ salHash a false ∨ cur.is_deleted = true
        · simp [opsFor, classifySal, hl, hc, opKey, he]
        · simp [opsFor, classifySal, hl, hc, opKey, he]

theorem opsFor_passA_not_mem (gold : List (String × CurInfo)) (k : String) :
    ∀ (silver : List (String × SalAttrs)), ¬ k ∈ keysOf silver
      → opsFor k (passASal gold silver) = [] := by
  intro silver
  induction silver with
  | nil => intro _; rfl
  | cons p rest ih =>
      intro hk
      obtain ⟨k2, a⟩ := p
      have h2 : ¬ k2 = k := by
        intro e
        exact hk (e ▸ List.mem_cons_self _ _)
      have h3 : ¬ k ∈ keysOf rest := fun hm => hk (List.mem_cons_of_mem _ hm)
      rw [passASal, opsFor_append, opsFor_classifySal, if_neg h2, ih h3]
      rfl

theorem opsFor_passA_mem (gold : List (String × CurInfo)) (k : String) (a : SalAttrs) :
    ∀ (silver : List (String × SalAttrs)), (keysOf silver).Nodup → (k, a) ∈ silver
      → opsFor k (passASal gold silver) = classifySal gold k a := by
  intro silver
  induction silver with
  | nil => intro _ hm; cases hm
  | cons p rest ih =>
      intro hn hm
      obtain ⟨k2, a2⟩ := p
      have hn2 : (k2 :: keysOf rest).Nodup := hn
      rcases List.mem_cons.mp hm with he | hr
      · injection he with e1 e2
        subst e1; subst e2
        have hknr : ¬ k ∈ keysOf rest := (List.nodup_cons.mp hn2).1
        rw [passASal, opsFor_append, opsFor_classifySal, if_pos rfl,
          opsFor_passA_not_mem gold k rest hknr]
        rw [List.append_nil]
      · have hkr : k ∈ keysOf rest := by
          simpa [keysOf] using List.mem_map_of_mem Prod.fst hr
        have h2 : ¬ k2 = k := by
          intro e
          exact (List.nodup_cons.mp hn2).1 (e ▸ hkr)
        rw [passASal, opsFor_append, opsFor_classifySal, if_neg h2,
          ih (List.nodup_cons.mp hn2).2 hr]
        rfl

theorem opsFor_passB_mem_sk (sk : List String) (k : String) (hk : k ∈ sk) :
    ∀ (gold : List (String × CurInfo)), opsFor k (passBSal sk gold) = [] := by
  intro gold
  induction gold with
  | nil => rfl
  | cons p rest ih =>
      obtain ⟨k2, cur⟩ := p
      rw [passBSal, opsFor_append, ih]
      by_cases h2 : k2 ∈ sk
      · rw [if_pos h2]; rfl
      · have hne : ¬ k2 = k := by
          intro e
          exact h2 (e ▸ hk)
        rw [if_neg h2]
        by_cases hd : cur.is_deleted = true
        · rw [if_pos hd]; rfl
        · rw [if_neg hd]
          simp [opsFor, opKey, hne]

theorem opsFor_passB_not_mem_gold (sk : List String) (k : String) :
    ∀ (gold : List (String × CurInfo)), (∀ v, ¬ (k, v) ∈ gold)
      → opsFor k (passBSal sk gold) = [] := by
  intro gold
  induction gold with
  | nil => intro _; rfl
  | cons p rest ih =>
      intro hng
      obtain ⟨k2, cur⟩ := p
      have hne : ¬ k2 = k := by
        intro e
        exact hng cur (by rw [e]; exact List.mem_cons_self _ _)
      have hr : ∀ v, ¬ (k, v) ∈ rest := fun v hv => hng v (List.mem_cons_of_mem _ hv)
      rw [passBSal, opsFor_append, ih hr]
      by_cases h2 : k2 ∈ sk
      · rw [if_pos h2]; rfl
      · rw [if_neg h2]
        by_cases hd : cur.is_deleted = true
        · rw [if_pos hd]; rfl
        · rw [if_neg hd]
          simp [opsFor, opKey, hne]

theorem opsFor_passB_mem (sk : List String) (k : String) (cur : CurInfo) :
    ∀ (gold : List (String × CurInfo)), (keysOf gold).Nodup → (k, cur) ∈ gold
      → ¬ k ∈ sk
      → opsFor k (passBSal sk gold)
          = if cur.is_deleted = true then []
            else [Op.close k, Op.insert k (tombAttrs cur) true] := by
  intro gold
  induction gold with
  | nil => intro _ hm; cases hm
  | cons p rest ih =>
      intro hn hm hks
      obtain ⟨k2, cur2⟩ := p
      have hn2 : (k2 :: keysOf rest).Nodup := hn
      rcases List.mem_cons.mp hm with he | hr
      · injection he with e1 e2
        subst e1; subst e2
        have hknr : ¬ k ∈ keysOf rest := (List.nodup_cons.mp hn2).1
        have hng : ∀ v, ¬ (k, v) ∈ rest := by
          intro v hv
          exact hknr (by simpa [keysOf] using List.mem_map_of_mem Prod.fst hv)
        rw [passBSal, opsFor_append, opsFor_passB_not_mem_gold sk k rest hng,
          List.append_nil, if_neg hks]
        by_cases hd : cur.is_deleted = true
        · rw [if_pos hd]; rfl
        · rw [if_neg hd]
          simp [opsFor, opKey]
      · have hkr : k ∈ keysOf rest := by
          simpa [keysOf] using List.mem_map_of_mem Prod.fst hr
        have h2 : ¬ k2 = k := by
          intro e
          exact (List.nodup_cons.mp hn2).1 (e ▸ hkr)
        rw [passBSal, opsFor_append, ih (List.nodup_cons.mp hn2).2 hr hks]
        by_cases h3 : k2 ∈ sk
        · rw [if_pos h3]; rfl
        · rw [if_neg h3]
          by_cases hd : cur2.is_deleted = true
          · rw [if_pos hd]; rfl
          · rw [if_neg hd]
            simp [opsFor, opKey, h2]

theorem mem_keysOf_of_mem {α : Type} {m : List (String × α)} {k : String} {v : α}
    (h : (k, v) ∈ m) : k ∈ keysOf m := by
  simpa [keysOf] using List.mem_map_of_mem Prod.fst h

theorem opsFor_reconcile_silver (silver : List (String × SalAttrs))
    (gold : List (String × CurInfo)) (k : String) (a : SalAttrs)
    (hn : (keysOf silver).Nodup) (hm : (k, a) ∈ silver) :
    opsFor k (reconcileSal silver gold) = classifySal gold k a := by
  rw [reconcileSal, opsFor_append, opsFor_passA_mem gold k a silver hn hm,
    opsFor_passB_mem_sk (keysOf silver) k (mem_keysOf_of_mem hm) gold,
    List.append_nil]

theorem opsFor_reconcile_gold (silver : List (String × SalAttrs))
    (gold : List (String × CurInfo)) (k : String) (cur : CurInfo)
    (hk : ¬ k ∈ keysOf silver) (hd : (keysOf gold).Nodup) (hm : (k, cur) ∈ gold) :
    opsFor k (reconcileSal silver gold)
      = if cur.is_deleted = true then []
        else [Op.close k, Op.insert k (tombAttrs cur) true] := by
  rw [reconcileSal, opsFor_append, opsFor_passA_not_mem gold k silver hk,
    opsFor_passB_mem (keysOf silver) k cur gold hd hm hk, List.nil_append]

theorem opsFor_reconcile_absent (silver : List (String × SalAttrs))
    (gold : List (String × CurInfo)) (k : String)
    (hk : ¬ k ∈ keysOf silver) (hng : ∀ v, ¬ (k, v) ∈ gold) :
    opsFor k (reconcileSal silver gold) = [] := by
  rw [reconcileSal, opsFor_append, opsFor_passA_not_mem gold k silver hk,
    opsFor_passB_not_mem_gold (keysOf silver) k gold hng, List.nil_append]

theorem ops_eq_nil_of_forall (ops : List Op) (h : ∀ k, opsFor k ops = []) : ops = [] := by
  cases ops with
  | nil => rfl
  | cons op rest =>
      have h2 := h (opKey op)
      rw [opsFor_cons, if_pos rfl] at h2
      cases h2

/-! ### Frame lemmas for the writer -/

theorem frameRel_refl (as_of : Nat) (r : SalRow) : frameRel as_of r r := Or.inl rfl

theorem frameRel_trans (as_of : Nat) (r0 r1 r2 : SalRow)
    (h1 : frameRel as_of r0 r1) (h2 : frameRel as_of r1 r2) : frameRel as_of r0 r2 := by
  rcases h1 with e1 | e1
  · subst e1; exact h2
  · subst e1
    rcases h2 with e2 | e2
    · subst e2; exact Or.inr rfl
    · subst e2; exact Or.inr rfl

theorem forall₂_frame_refl (as_of : Nat) (l : SalHisto) :
    List.Forall₂ (frameRel as_of) l l :=
  List.forall₂_same.mpr (fun x _ => frameRel_refl as_of x)

theorem forall₂_frame_trans (as_of : Nat) :
    ∀ {l1 l2 l3 : SalHisto}, List.Forall₂ (frameRel as_of) l1 l2
      → List.Forall₂ (frameRel as_of) l2 l3 → List.Forall₂ (frameRel as_of) l1 l3 := by
  intro l1 l2 l3 h1
  induction h1 generalizing l3 with
  | nil => intro h2; cases h2; exact List.Forall₂.nil
  | cons hr htail ih =>
      intro h2
      cases h2 with
      | cons hr2 htail2 =>
          exact List.Forall₂.cons (frameRel_trans as_of _ _ _ hr hr2) (ih htail2)

theorem forall₂_frame_close (as_of : Nat) (k : String) (h : SalHisto) :
    List.Forall₂ (frameRel as_of) h (close_current as_of k h) := by
  induction h with
  | nil => exact List.Forall₂.nil
  | cons x l ih =>
      rw [close_current_cons]
      refine List.Forall₂.cons ?_ ih
      by_cases hc : x.is_current = true ∧ x.ref_salarie = k
      · rw [if_pos hc]; exact Or.inr rfl
      · rw [if_neg hc]; exact Or.inl rfl

theorem freshRow_insert_version (as_of : Nat) (b : Int) (k : String) (a : SalAttrs)
    (d : Bool) : freshRow as_of b (insert_version k a as_of b d) :=
  ⟨rfl, rfl, rfl, rfl, rfl⟩

theorem frame_applyOps (as_of : Nat) (b : Int) :
    ∀ (ops : List Op) (h : SalHisto), ∃ news : SalHisto,
      List.Forall₂ (frameRel as_of) (h ++ news) (applyOps as_of b h ops)
        ∧ ∀ r ∈ news, freshRow as_of b r := by
  intro ops
  induction ops with
  | nil =>
      intro h
      refine ⟨[], ?_, by simp⟩
      rw [List.append_nil]
      exact forall₂_frame_refl as_of h
  | cons op rest ih =>
      intro h
      obtain ⟨news, hf, hfr⟩ := ih (applyOp as_of b h op)
      rw [applyOps_cons]
      cases op with
      | close k =>
          refine ⟨news, ?_, hfr⟩
          have hc : List.Forall₂ (frameRel as_of) (h ++ news)
              (close_current as_of k h ++ news) :=
            List.rel_append (forall₂_frame_close as_of k h) (forall₂_frame_refl as_of news)
          exact forall₂_frame_trans as_of hc hf
      | insert k a d =>
          refine ⟨insert_version k a as_of b d :: news, ?_, ?_⟩
          · have he : h ++ (insert_version k a as_of b d :: news)
                = (h ++ [insert_version k a as_of b d]) ++ news := by
              simp
            rw [he]
            exact hf
          · intro r hr
            rcases List.mem_cons.mp hr with he | hm
            · subst he; exact freshRow_insert_version as_of b k a d
            · exact hfr r hm

/-! ### Batch-resolution lemmas -/

theorem foldl_max_le (l : List Int) (i : Int) :
    i ≤ l.foldl max i ∧ ∀ x ∈ l, x ≤ l.foldl max i := by
  induction l generalizing i with
  | nil => exact ⟨le_refl i, by simp⟩
  | cons a t ih =>
      obtain ⟨h1, h2⟩ := ih (max i a)
      refine ⟨le_trans (le_max_left i a) h1, ?_⟩
      intro x hx
      rcases List.mem_cons.mp hx with he | hm
      · subst he; exact le_trans (le_max_right i x) h1
      · exact h2 x hm

theorem foldl_max_mem (l : List Int) (i : Int) :
    l.foldl max i = i ∨ l.foldl max i ∈ l := by
  induction l generalizing i with
  | nil => exact Or.inl rfl
  | cons a t ih =>
      rcases ih (max i a) with he | hm
      · rcases max_choice i a with hc | hc
        · exact Or.inl (by rw [List.foldl_cons, he, hc])
        · refine Or.inr ?_
          rw [List.foldl_cons, he, hc]
          exact List.mem_cons_self _ _
      · exact Or.inr (List.mem_cons_of_mem _ hm)

theorem get_latest_spec (batches : List BatchRun) (dataset : String) (as_of : Nat) (b : Int)
    (h : get_latest_batch_id batches dataset as_of = Except.ok b) :
    (∃ br ∈ batches,
        (br.dataset = dataset ∧ br.as_of_date = as_of ∧ br.status = "SUCCESS")
          ∧ br.batch_id = b)
      ∧ ∀ br ∈ batches,
          (br.dataset = dataset ∧ br.as_of_date = as_of ∧ br.status = "SUCCESS")
            → br.batch_id ≤ b := by
  rw [get_latest_batch_id] at h
  cases hm : (batches.filter (fun br =>
      decide (br.dataset = dataset ∧ br.as_of_date = as_of ∧ br.status = "SUCCESS"))).map
      (fun br => br.batch_id) with
  | nil => rw [hm] at h; cases h
  | cons i rest =>
      rw [hm] at h
      have hb : b = rest.foldl max i := by
        injection h with h2
        exact h2.symm
      have hmem : b ∈ i :: rest := by
        rcases foldl_max_mem rest i with he | hmm
        · rw [hb, he]; exact List.mem_cons_self _ _
        · rw [hb]; exact List.mem_cons_of_mem _ hmm
      have hle : ∀ x ∈ i :: rest, x ≤ b := by
        intro x hx
        rcases List.mem_cons.mp hx with he | hmm
        · subst he; rw [hb]; exact (foldl_max_le rest x).1
        · rw [hb]; exact (foldl_max_le rest i).2 x hmm
      constructor
      · have : b ∈ (batches.filter (fun br =>
            decide (br.dataset = dataset ∧ br.as_of_date = as_of ∧ br.status = "SUCCESS"))).map
            (fun br => br.batch_id) := by rw [hm]; exact hmem
        obtain ⟨br, hbr, hid⟩ := List.mem_map.mp this
        obtain ⟨hbm, hbp⟩ := List.mem_filter.mp hbr
        exact ⟨br, hbm, of_decide_eq_true hbp, hid⟩
      · intro br hbr hp
        have : br.batch_id ∈ (batches.filter (fun br =>
            decide (br.dataset = dataset ∧ br.as_of_date = as_of ∧ br.status = "SUCCESS"))).map
            (fun br => br.batch_id) :=
          List.mem_map_of_mem _ (List.mem_filter.mpr ⟨hbr, decide_eq_true hp⟩)
        rw [hm] at this
        exact hle _ this

theorem get_latest_none (batches : List BatchRun) (dataset : String) (as_of : Nat)
    (h : ∀ br ∈ batches,
      ¬ (br.dataset = dataset ∧ br.as_of_date = as_of ∧ br.status = "SUCCESS")) :
    get_latest_batch_id batches dataset as_of
      = Except.error ("No SUCCESS batch found for dataset=" ++ dataset) := by
  rw [get_latest_batch_id]
  have hf : batches.filter (fun br =>
      decide (br.dataset = dataset ∧ br.as_of_date = as_of ∧ br.status = "SUCCESS")) = [] := by
    rw [List.filter_eq_nil_iff]
    intro br hbr
    simpa using h br hbr
  rw [hf]
  rfl

/-! ### Fingerprint canonicalization lemmas -/

theorem sep_split : ∀ (a1 a2 t1 t2 : List Char), ¬ '|' ∈ a1 → ¬ '|' ∈ a2
    → a1 ++ '|' :: '|' :: t1 = a2 ++ '|' :: '|' :: t2 → a1 = a2 ∧ t1 = t2 := by
  intro a1
  induction a1 with
  | nil =>
      intro a2 t1 t2 _ h2 he
      cases a2 with
      | nil =>
          refine ⟨rfl, ?_⟩
          simpa using he
      | cons c a2' =>
          exfalso
          injection he with hc _
          exact h2 (hc ▸ List.mem_cons_self _ _)
  | cons c a1' ih =>
      intro a2 t1 t2 h1 h2 he
      cases a2 with
      | nil =>
          exfalso
          injection he with hc _
          exact h1 (hc ▸ List.mem_cons_self _ _)
      | cons c2 a2' =>
          injection he with hc ht
          subst hc
          have h1' : ¬ '|' ∈ a1' := fun hm => h1 (List.mem_cons_of_mem _ hm)
          have h2' : ¬ '|' ∈ a2' := fun hm => h2 (List.mem_cons_of_mem _ hm)
          obtain ⟨e1, e2⟩ := ih a2' t1 t2 h1' h2' ht
          exact ⟨by rw [e1], e2⟩

theorem joinSep_cons₂ (s r : String) (rest : List String) :
    joinSep (s :: r :: rest) = s ++ "||" ++ joinSep (r :: rest) := rfl

theorem joinSep_inj : ∀ (l1 l2 : List String), l1.length = l2.length
    → (∀ s ∈ l1, pipeFree s) → (∀ s ∈ l2, pipeFree s)
    → joinSep l1 = joinSep l2 → l1 = l2 := by
  intro l1
  induction l1 with
  | nil =>
      intro l2 hl _ _ _
      cases l2 with
      | nil => rfl
      | cons t r2 => cases hl
  | cons s r1 ih =>
      intro l2 hl hp1 hp2 he
      cases l2 with
      | nil => cases hl
      | cons t r2 =>
          cases r1 with
          | nil =>
              cases r2 with
              | nil => rw [show (joinSep [s]) = s from rfl, show (joinSep [t]) = t from rfl] at he
                       rw [he]
              | cons u r2' => simp at hl
          | cons s2 r1' =>
              cases r2 with
              | nil => simp at hl
              | cons t2 r2' =>
                  rw [joinSep_cons₂, joinSep_cons₂] at he
                  have hd := congrArg String.data he
                  rw [String.data_append, String.data_append, String.data_append,
                    String.data_append, List.append_assoc, List.append_assoc] at hd
                  have hsplit := sep_split s.data t.data
                    (joinSep (s2 :: r1')).data (joinSep (t2 :: r2')).data
                    (hp1 s (List.mem_cons_self _ _)) (hp2 t (List.mem_cons_self _ _)) hd
                  have hst : s = t := String.ext hsplit.1
                  have hjj : joinSep (s2 :: r1') = joinSep (t2 :: r2') := String.ext hsplit.2
                  have hlen : (s2 :: r1').length = (t2 :: r2').length := by
                    simpa using hl
                  have htails := ih (t2 :: r2') hlen
                    (fun x hx => hp1 x (List.mem_cons_of_mem _ hx))
                    (fun x hx => hp2 x (List.mem_cons_of_mem _ hx)) hjj
                  rw [hst, htails]

theorem md5_sensitivity (v w : List PyVal) (hl : v.length = w.length)
    (hp1 : ∀ s ∈ v.map pyCanon, pipeFree s) (hp2 : ∀ s ∈ w.map pyCanon, pipeFree s)
    (hne : ¬ v.map pyCanon = w.map pyCanon) : ¬ md5_hash v = md5_hash w := by
  intro he
  exact hne (joinSep_inj (v.map pyCanon) (w.map pyCanon) (by simp [hl]) hp1 hp2 he)

/-! ### Claim theorems -/

/-- C1 (Pass A upsert classification): for every key `k` of the source snapshot
(a dict, so keys are unique), the operations the run emits for `k` are exactly:
one non-deleted `Insert` when `k` has no current version; `Close(k)` followed by
one non-deleted `Insert` built from the source attributes when the stored
`record_hash` differs from the fresh fingerprint of the source attributes with
`is_deleted = false` or the current version is tombstoned; and no operation
otherwise. Applying the emitted insert writes a row whose `valid_from` is the
as-of date and whose `is_deleted` is false. -/
theorem claim_C1_passA_classification
    (silver : List (String × SalAttrs)) (gold : List (String × CurInfo))
    (k : String) (a : SalAttrs) (as_of : Nat) (b : Int)
    (hn : (keysOf silver).Nodup) (hm : (k, a) ∈ silver) :
    (lookupKey gold k = Option.none
      → opsFor k (reconcileSal silver gold) = [Op.insert k a false])
    ∧ (∀ cur, lookupKey gold k = Option.some cur
        → (¬ cur.record_hash = salHash a false ∨ cur.is_deleted = true)
        → opsFor k (reconcileSal silver gold) = [Op.close k, Op.insert k a false])
    ∧ (∀ cur, lookupKey gold k = Option.some cur
        → cur.record_hash = salHash a false → cur.is_deleted = false
        → opsFor k (reconcileSal silver gold) = [])
    ∧ (insert_version k a as_of b false).valid_from = as_of
    ∧ (insert_version k a as_of b false).is_deleted = false := by
  refine ⟨?_, ?_, ?_, rfl, rfl⟩
  · intro hl
    rw [opsFor_reconcile_silver silver gold k a hn hm]
    simp [classifySal, hl]
  · intro cur hl hc
    rw [opsFor_reconcile_silver silver gold k a hn hm]
    simp only [classifySal, hl]
    rw [if_pos hc]
  · intro cur hl hh hd
    rw [opsFor_reconcile_silver silver gold k a hn hm]
    simp only [classifySal, hl]
    rw [if_neg (by simp [hh, hd])]

/-- Witness for C1 at concrete inputs: a brand-new key is inserted once, an
unchanged matching key yields no operation, and the inserted version carries
the as-of date. -/
theorem claim_C1_passA_classification_witness :
    opsFor "A" (reconcileSal silverW []) = [Op.insert "A" aW false]
      ∧ opsFor "A" (reconcileSal silverW [("A", toCurInfo rowW)]) = []
      ∧ (insert_version "A" aW 20240101 7 false).valid_from = 20240101 :=
  ⟨(claim_C1_passA_classification silverW [] "A" aW 20240101 7 (by decide) (by decide)).1
      rfl,
   (claim_C1_passA_classification silverW [("A", toCurInfo rowW)] "A" aW 20240101 7
      (by decide) (by decide)).2.2.1 (toCurInfo rowW) rfl (by decide) (by decide),
   (claim_C1_passA_classification silverW [] "A" aW 20240101 7 (by decide)
      (by decide)).2.2.2.1⟩

/-- C2 counterexample: in the paiement reconciler, a current non-deleted
version of key `P1` with a null `montant_paye` whose key is absent from the
snapshot does NOT get the claimed `Close` + tombstone `Insert`: building the
tombstone raises `TypeError` (unguarded `float(None)`), the diff yields no
operation list at all, and the transaction rolls back leaving the history
unchanged — so the claim as stated fails on the code. -/
theorem claim_C2_counterexample :
    (pai_insert_version "P1" paiAttrsC9 1 1 false).is_deleted = false
    ∧ (pai_insert_version "P1" paiAttrsC9 1 1 false).is_current = true
    ∧ (pai_insert_version "P1" paiAttrsC9 1 1 false).montant_paye = Option.none
    ∧ reconcilePai [] (fetch_pai_current hPai)
        = Except.error
            "TypeError: float() argument must be a string or a real number, not NoneType"
    ∧ runPaiementTx
        [{ batch_id := 2, dataset := "paiement", as_of_date := 2, status := "SUCCESS" }]
        "paiement" [] hPai 2
        = (Except.error
            "TypeError: float() argument must be a string or a real number, not NoneType",
           hPai) :=
  ⟨rfl, rfl, rfl, rfl, rfl⟩

/-- C2 amended (Pass B tombstone classification): for every key `k` current in
gold but absent from the snapshot, the salarie reconciler emits `Close(k)` then
one tombstone `Insert` whose attributes are carried forward unchanged from the
current version when it is non-deleted, and nothing when it is already
tombstoned; the paiement reconciler behaves the same **provided the stored
`montant_paye` is non-null** (its tombstone dict is then the carried-forward
attributes) — with a null amount it aborts instead (see the counterexample). -/
theorem claim_C2_tombstone_amended :
    (∀ (silver : List (String × SalAttrs)) (gold : List (String × CurInfo)) (k : String)
        (cur : CurInfo), (keysOf gold).Nodup → (k, cur) ∈ gold → ¬ k ∈ keysOf silver
      → (cur.is_deleted = false
          → opsFor k (reconcileSal silver gold)
              = [Op.close k, Op.insert k (tombAttrs cur) true])
        ∧ (cur.is_deleted = true → opsFor k (reconcileSal silver gold) = []))
    ∧ (∀ (cur : PaiCur) (q : Rat) (rs rb rd : String),
        cur.montant_paye = Option.some q → cur.ref_salarie = Option.some rs
        → cur.rib_salarie = Option.some rb → cur.ref_demande_avance = Option.some rd
        → buildTombPai cur = Except.ok
            { ref_salarie := Option.some rs, montant_paye := Option.some q,
              rib_salarie := Option.some rb, date_paiement := cur.date_paiement,
              ref_demande_avance := Option.some rd }) := by
  constructor
  · intro silver gold k cur hd hm hks
    have ho := opsFor_reconcile_gold silver gold k cur hks hd hm
    constructor
    · intro hdel
      rw [ho, if_neg (by simp [hdel])]
    · intro hdel
      rw [ho, if_pos hdel]
  · intro cur q rs rb rd hq hrs hrb hrd
    simp [buildTombPai, pyFloat, pyStr, hq, hrs, hrb, hrd]

/-- Witness for the amended C2 at concrete inputs. -/
theorem claim_C2_tombstone_amended_witness :
    opsFor "A" (reconcileSal ([] : List (String × SalAttrs)) [("A", toCurInfo rowStale)])
      = [Op.close "A", Op.insert "A" (tombAttrs (toCurInfo rowStale)) true]
    ∧ buildTombPai (toPaiCur (pai_insert_version "P1"
        { ref_salarie := Option.some "S1", montant_paye := Option.some 9,
          rib_salarie := Option.some "R1", date_paiement := Option.some 11,
          ref_demande_avance := Option.some "D1" } 1 1 false))
      = Except.ok
          { ref_salarie := Option.some "S1", montant_paye := Option.some 9,
            rib_salarie := Option.some "R1", date_paiement := Option.some 11,
            ref_demande_avance := Option.some "D1" } :=
  ⟨(claim_C2_tombstone_amended.1 ([] : List (String × SalAttrs))
      [("A", toCurInfo rowStale)] "A" (toCurInfo rowStale)
      (by decide) (by decide) (by decide)).1 (by decide),
   claim_C2_tombstone_amended.2 _ 9 "S1" "R1" "D1" rfl rfl rfl rfl⟩

/-- C3 (Invariant I1 preservation): if every key has at most one current row,
then after one full reconciliation run (both passes, all emitted Close and
Insert operations applied) every key still has at most one current row — for
all source snapshots and all starting histories. -/
theorem claim_C3_invariant_I1 (batches : List BatchRun) (dataset : String)
    (silver : List (String × SalAttrs)) (h : SalHisto) (as_of : Nat) (h2 : SalHisto)
    (hn : (keysOf silver).Nodup) (hI : InvI1 h)
    (hrun : runSalarie batches dataset silver h as_of = Except.ok h2) :
    InvI1 h2 := by
  rw [runSalarie] at hrun
  cases hb : get_latest_batch_id batches dataset as_of with
  | error e => rw [hb] at hrun; cases hrun
  | ok b =>
      rw [hb] at hrun
      have hh2 : h2 = applyOps as_of b h (reconcileSal silver (fetch_gold_current h)) := by
        injection hrun with hx
        exact hx.symm
      subst hh2
      intro k
      by_cases hks : k ∈ keysOf silver
      · obtain ⟨⟨p1, a⟩, hp, he⟩ := List.mem_map.mp hks
        have he2 : p1 = k := he
        rw [he2] at hp
        have hm : (k, a) ∈ silver := hp
        cases hl : lookupKey (fetch_gold_current h) k with
        | none =>
            have hops : opsFor k (reconcileSal silver (fetch_gold_current h))
                = [Op.insert k a false] := by
              rw [opsFor_reconcile_silver silver _ k a hn hm]
              simp [classifySal, hl]
            have hl2 : Option.map toCurInfo (lastOpt (curFor h k)) = Option.none := by
              rw [← fetch_lookup h k]; exact hl
            have hlast : lastOpt (curFor h k) = Option.none := by
              cases hc : lastOpt (curFor h k) with
              | none => rfl
              | some r => rw [hc] at hl2; cases hl2
            rw [curFor_applyOps_insert as_of b k a false _ h hops, lastOpt_eq_none hlast]
            simp
        | some cur =>
            by_cases hc : ¬ cur.record_hash = salHash a false ∨ cur.is_deleted = true
            · have hops : opsFor k (reconcileSal silver (fetch_gold_current h))
                  = [Op.close k, Op.insert k a false] := by
                rw [opsFor_reconcile_silver silver _ k a hn hm]
                simp only [classifySal, hl]
                rw [if_pos hc]
              rw [curFor_applyOps_close_insert as_of b k a false _ h hops]
              simp
            · have hops : opsFor k (reconcileSal silver (fetch_gold_current h)) = [] := by
                rw [opsFor_reconcile_silver silver _ k a hn hm]
                simp only [classifySal, hl]
                rw [if_neg hc]
              rw [curFor_applyOps_nil as_of b k _ h hops]
              exact hI k
      · cases hl : lookupKey (fetch_gold_current h) k with
        | none =>
            have hops : opsFor k (reconcileSal silver (fetch_gold_current h)) = [] :=
              opsFor_reconcile_absent silver _ k hks (not_mem_of_lookupKey_none hl)
            rw [curFor_applyOps_nil as_of b k _ h hops]
            exact hI k
        | some cur =>
            have hm2 := mem_of_lookupKey hl
            have hops0 := opsFor_reconcile_gold silver _ k cur hks (nodup_fetch h) hm2
            by_cases hd : cur.is_deleted = true
            · have hops : opsFor k (reconcileSal silver (fetch_gold_current h)) = [] := by
                rw [hops0, if_pos hd]
              rw [curFor_applyOps_nil as_of b k _ h hops]
              exact hI k
            · have hops : opsFor k (reconcileSal silver (fetch_gold_current h))
                  = [Op.close k, Op.insert k (tombAttrs cur) true] := by
                rw [hops0, if_neg hd]
              rw [curFor_applyOps_close_insert as_of b k (tombAttrs cur) true _ h hops]
              simp

/-- Witness for C3: running the engine on an empty history (which satisfies I1)
yields a history that satisfies I1. -/
theorem claim_C3_invariant_I1_witness :
    InvI1 [insert_version "A" aW 20240101 7 false] :=
  claim_C3_invariant_I1 [batchW] "salarie" silverW [] 20240101
    [insert_version "A" aW 20240101 7 false] (by decide) (fun _ => Nat.zero_le 1) rfl

/-- Core of idempotence: after applying one full diff, re-diffing the same
snapshot against the updated current set yields no operations at all, for every
starting history (even a corrupted one). -/
theorem reconcile_idem (silver : List (String × SalAttrs)) (h : SalHisto)
    (as_of : Nat) (b : Int) (hn : (keysOf silver).Nodup) :
    reconcileSal silver (fetch_gold_current
      (applyOps as_of b h (reconcileSal silver (fetch_gold_current h)))) = [] := by
  set h2 := applyOps as_of b h (reconcileSal silver (fetch_gold_current h)) with hh2
  apply ops_eq_nil_of_forall
  intro k
  by_cases hks : k ∈ keysOf silver
  · obtain ⟨⟨p1, a⟩, hp, he⟩ := List.mem_map.mp hks
    have he2 : p1 = k := he
    rw [he2] at hp
    have hm : (k, a) ∈ silver := hp
    rw [opsFor_reconcile_silver silver _ k a hn hm]
    cases hl : lookupKey (fetch_gold_current h) k with
    | none =>
        have hops : opsFor k (reconcileSal silver (fetch_gold_current h))
            = [Op.insert k a false] := by
          rw [opsFor_reconcile_silver silver _ k a hn hm]
          simp [classifySal, hl]
        have hl2 : Option.map toCurInfo (lastOpt (curFor h k)) = Option.none := by
          rw [← fetch_lookup h k]; exact hl
        have hlast : lastOpt (curFor h k) = Option.none := by
          cases hc : lastOpt (curFor h k) with
          | none => rfl
          | some r => rw [hc] at hl2; cases hl2
        have hcur2 : curFor h2 k = [insert_version k a as_of b false] := by
          rw [hh2, curFor_applyOps_insert as_of b k a false _ h hops,
            lastOpt_eq_none hlast]
          rfl
        have hlk2 : lookupKey (fetch_gold_current h2) k
            = Option.some (toCurInfo (insert_version k a as_of b false)) := by
          rw [fetch_lookup, hcur2]
          rfl
        simp [classifySal, hlk2, toCurInfo, insert_version]
    | some cur =>
        by_cases hc : ¬ cur.record_hash = salHash a false ∨ cur.is_deleted = true
        · have hops : opsFor k (reconcileSal silver (fetch_gold_current h))
              = [Op.close k, Op.insert k a false] := by
            rw [opsFor_reconcile_silver silver _ k a hn hm]
            simp only [classifySal, hl]
            rw [if_pos hc]
          have hcur2 : curFor h2 k = [insert_version k a as_of b false] := by
            rw [hh2]
            exact curFor_applyOps_close_insert as_of b k a false _ h hops
          have hlk2 : lookupKey (fetch_gold_current h2) k
              = Option.some (toCurInfo (insert_version k a as_of b false)) := by
            rw [fetch_lookup, hcur2]
            rfl
          simp [classifySal, hlk2, toCurInfo, insert_version]
        · have hops : opsFor k (reconcileSal silver (fetch_gold_current h)) = [] := by
            rw [opsFor_reconcile_silver silver _ k a hn hm]
            simp only [classifySal, hl]
            rw [if_neg hc]
          have hcur2 : curFor h2 k = curFor h k := by
            rw [hh2]
            exact curFor_applyOps_nil as_of b k _ h hops
          have hlk2 : lookupKey (fetch_gold_current h2) k = Option.some cur := by
            rw [fetch_lookup, hcur2, ← fetch_lookup h k]
            exact hl
          simp only [classifySal, hlk2]
          rw [if_neg hc]
  · cases hl : lookupKey (fetch_gold_current h) k with
    | none =>
        have hops : opsFor k (reconcileSal silver (fetch_gold_current h)) = [] :=
          opsFor_reconcile_absent silver _ k hks (not_mem_of_lookupKey_none hl)
        have hcur2 : curFor h2 k = curFor h k := by
          rw [hh2]
          exact curFor_applyOps_nil as_of b k _ h hops
        have hlk2 : lookupKey (fetch_gold_current h2) k = Option.none := by
          rw [fetch_lookup, hcur2, ← fetch_lookup h k]
          exact hl
        exact opsFor_reconcile_absent silver _ k hks (not_mem_of_lookupKey_none hlk2)
    | some cur =>
        have hm2 := mem_of_lookupKey hl
        have hops0 := opsFor_reconcile_gold silver _ k cur hks (nodup_fetch h) hm2
        by_cases hd : cur.is_deleted = true
        · have hops : opsFor k (reconcileSal silver (fetch_gold_current h)) = [] := by
            rw [hops0, if_pos hd]
          have hcur2 : curFor h2 k = curFor h k := by
            rw [hh2]
            exact curFor_applyOps_nil as_of b k _ h hops
          have hlk2 : lookupKey (fetch_gold_current h2) k = Option.some cur := by
            rw [fetch_lookup, hcur2, ← fetch_lookup h k]
            exact hl
          have hm3 := mem_of_lookupKey hlk2
          rw [opsFor_reconcile_gold silver _ k cur hks (nodup_fetch h2) hm3, if_pos hd]
        · have hops : opsFor k (reconcileSal silver (fetch_gold_current h))
              = [Op.close k, Op.insert k (tombAttrs cur) true] := by
            rw [hops0, if_neg hd]
          have hcur2 : curFor h2 k = [insert_version k (tombAttrs cur) as_of b true] := by
            rw [hh2]
            exact curFor_applyOps_close_insert as_of b k (tombAttrs cur) true _ h hops
          have hlk2 : lookupKey (fetch_gold_current h2) k
              = Option.some (toCurInfo (insert_version k (tombAttrs cur) as_of b true)) := by
            rw [fetch_lookup, hcur2]
            rfl
          have hm3 := mem_of_lookupKey hlk2
          rw [opsFor_reconcile_gold silver _ k _ hks (nodup_fetch h2) hm3,
            if_pos (show (toCurInfo (insert_version k (tombAttrs cur) as_of b true)).is_deleted
              = true from rfl)]

/-- C4 (Idempotence): after a completed run, re-running the reconciliation with
the unchanged snapshot emits zero operations — no Close and no Insert for any
key — whatever the starting history was. -/
theorem claim_C4_idempotence (batches : List BatchRun) (dataset : String)
    (silver : List (String × SalAttrs)) (h : SalHisto) (as_of : Nat) (h2 : SalHisto)
    (hn : (keysOf silver).Nodup)
    (hrun : runSalarie batches dataset silver h as_of = Except.ok h2) :
    reconcileSal silver (fetch_gold_current h2) = [] := by
  rw [runSalarie] at hrun
  cases hb : get_latest_batch_id batches dataset as_of with
  | error e => rw [hb] at hrun; cases hrun
  | ok b =>
      rw [hb] at hrun
      have hh2 : h2 = applyOps as_of b h (reconcileSal silver (fetch_gold_current h)) := by
        injection hrun with hx
        exact hx.symm
      subst hh2
      exact reconcile_idem silver h as_of b hn

/-- Witness for C4: a first run inserting `A` followed by a re-diff of the
unchanged snapshot produces the empty operation list. -/
theorem claim_C4_idempotence_witness :
    reconcileSal silverW
      (fetch_gold_current [insert_version "A" aW 20240101 7 false]) = [] :=
  claim_C4_idempotence [batchW] "salarie" silverW [] 20240101
    [insert_version "A" aW 20240101 7 false] (by decide) rfl

/-- C5 counterexample: starting from a history where key `A` already has two
current rows (I1 violated), the emitted `Close("A")` affects two rows, yet the
run does not abort: it commits a changed history (all matching rows closed plus
the new insert). This falsifies the claim that a close affecting zero or more
than one row is treated as a corruption signal that aborts the run. -/
theorem claim_C5_counterexample :
    (curFor h0C5 "A").length = 2
    ∧ reconcileSal silverW (fetch_gold_current h0C5)
        = [Op.close "A", Op.insert "A" aW false]
    ∧ runSalarieTx [batchW] "salarie" silverW h0C5 20240101
        = (Except.ok
            [{ rowStale with valid_to := 20240101, is_current := false },
             { rowStale with valid_to := 20240101, is_current := false },
             insert_version "A" aW 20240101 7 false],
           [{ rowStale with valid_to := 20240101, is_current := false },
            { rowStale with valid_to := 20240101, is_current := false },
            insert_version "A" aW 20240101 7 false])
    ∧ ¬ (runSalarieTx [batchW] "salarie" silverW h0C5 20240101).2 = h0C5 :=
  ⟨rfl, rfl, rfl, by decide⟩

/-- C5 amended: `Close(k)` is a blanket `update … where ref = k and is_current`
with no affected-row-count check: it closes every current row for `k` (zero,
one, or many), leaves every other key untouched, and the run continues and
commits regardless — once a provenance batch resolves, the run always returns
success rather than aborting on a close row count. -/
theorem claim_C5_close_amended :
    (∀ (as_of : Nat) (k : String) (h : SalHisto),
        curFor (close_current as_of k h) k = []
        ∧ ∀ k2, ¬ k2 = k → curFor (close_current as_of k h) k2 = curFor h k2)
    ∧ (∀ (batches : List BatchRun) (dataset : String)
         (silver : List (String × SalAttrs)) (h : SalHisto) (as_of : Nat) (b : Int),
        get_latest_batch_id batches dataset as_of = Except.ok b
        → runSalarie batches dataset silver h as_of
            = Except.ok (applyOps as_of b h
                (reconcileSal silver (fetch_gold_current h)))) := by
  constructor
  · intro as_of k h
    exact ⟨curFor_close_self as_of k h, fun k2 hne => curFor_close_other as_of k k2 h hne⟩
  · intro batches dataset silver h as_of b hb
    rw [runSalarie, hb]

/-- Witness for the amended C5 at concrete inputs. -/
theorem claim_C5_close_amended_witness :
    curFor (close_current 20240101 "A" h0C5) "A" = []
    ∧ curFor (close_current 20240101 "A" h0C5) "B" = curFor h0C5 "B"
    ∧ runSalarie [batchW] "salarie" silverW h0C5 20240101
        = Except.ok (applyOps 20240101 7 h0C5
            (reconcileSal silverW (fetch_gold_current h0C5))) :=
  ⟨(claim_C5_close_amended.1 20240101 "A" h0C5).1,
   (claim_C5_close_amended.1 20240101 "A" h0C5).2 "B" (by decide),
   claim_C5_close_amended.2 [batchW] "salarie" silverW h0C5 20240101 7 rfl⟩

/-- C6 (Run atomicity): one invocation either fails with the committed history
exactly as it was before the run (full rollback — no partial version set is
ever visible), or commits exactly the full set of closes and inserts of the
diff in one transaction. Shown for the salarie run (whose only raising step is
batch resolution) and for the paiement run (whose diff itself can raise midway
through pass B). -/
theorem claim_C6_run_atomicity :
    (∀ (batches : List BatchRun) (dataset : String)
        (silver : List (String × SalAttrs)) (h : SalHisto) (as_of : Nat),
      (∃ e, runSalarieTx batches dataset silver h as_of = (Except.error e, h))
      ∨ (∃ b h2, get_latest_batch_id batches dataset as_of = Except.ok b
          ∧ h2 = applyOps as_of b h (reconcileSal silver (fetch_gold_current h))
          ∧ runSalarieTx batches dataset silver h as_of = (Except.ok h2, h2)))
    ∧ (∀ (batches : List BatchRun) (dataset : String)
        (silver : List (String × PaiAttrs)) (h : PaiHisto) (as_of : Nat),
      (∃ e, runPaiementTx batches dataset silver h as_of = (Except.error e, h))
      ∨ (∃ b ops h2, get_latest_batch_id batches dataset as_of = Except.ok b
          ∧ reconcilePai silver (fetch_pai_current h) = Except.ok ops
          ∧ h2 = applyPaiOps as_of b h ops
          ∧ runPaiementTx batches dataset silver h as_of = (Except.ok h2, h2))) := by
  constructor
  · intro batches dataset silver h as_of
    cases hb : get_latest_batch_id batches dataset as_of with
    | error e =>
        left
        refine ⟨e, ?_⟩
        rw [runSalarieTx, runSalarie, hb]
        rfl
    | ok b =>
        right
        refine ⟨b, _, rfl, rfl, ?_⟩
        rw [runSalarieTx, runSalarie, hb]
        rfl
  · intro batches dataset silver h as_of
    cases hb : get_latest_batch_id batches dataset as_of with
    | error e =>
        left
        refine ⟨e, ?_⟩
        rw [runPaiementTx, runPaiement, hb]
        rfl
    | ok b =>
        cases hr : reconcilePai silver (fetch_pai_current h) with
        | error e =>
            left
            refine ⟨e, ?_⟩
            rw [runPaiementTx, runPaiement, hb, hr]
            rfl
        | ok ops =>
            right
            refine ⟨b, ops, _, rfl, rfl, rfl, ?_⟩
            rw [runPaiementTx, runPaiement, hb, hr]
            rfl

/-- C7 counterexample: two attribute lists that differ in a genuine attribute
value — none of the differing values being null or the empty string — receive
the same digest, because the values contain the reserved separator `"||"`
(`"a|" ++ "||" ++ "|b"` and `"a" ++ "||" ++ "||b"` join to the same preimage,
hence the same MD5). So the null/empty collapse is not the *single* exception
to sensitivity. -/
theorem claim_C7_counterexample :
    ¬ ([PyVal.vstr "a|", PyVal.vstr "|b", PyVal.vstr "c", PyVal.vbool false]
        = [PyVal.vstr "a", PyVal.vstr "||b", PyVal.vstr "c", PyVal.vbool false])
    ∧ md5_hash [PyVal.vstr "a|", PyVal.vstr "|b", PyVal.vstr "c", PyVal.vbool false]
        = md5_hash [PyVal.vstr "a", PyVal.vstr "||b", PyVal.vstr "c", PyVal.vbool false]
    ∧ (([PyVal.vstr "a|", PyVal.vstr "|b", PyVal.vstr "c", PyVal.vbool false]
         ++ [PyVal.vstr "a", PyVal.vstr "||b", PyVal.vstr "c", PyVal.vbool false]).all
        (fun v => decide (¬ v = PyVal.vnone ∧ ¬ v = PyVal.vstr ""))) = true :=
  ⟨by decide, by decide, by decide⟩

/-- C7 amended (fingerprint determinism and sensitivity): `md5_hash` is a pure
function (identical input gives identical digest, and digest equality coincides
with equality of the canonicalized joined values); it distinguishes any two
attribute lists whose canonical strings differ, **provided** the canonical
values are free of the reserved separator character `'|'`; a null attribute and
the empty string canonicalize identically (the documented exception), and —
beyond that single exception — separator-containing values can also collide
(see the counterexample). -/
theorem claim_C7_fingerprint_amended :
    (∀ v w : List PyVal, v = w → md5_hash v = md5_hash w)
    ∧ (∀ v w : List PyVal, v.map pyCanon = w.map pyCanon → md5_hash v = md5_hash w)
    ∧ (∀ v w : List PyVal, v.length = w.length
        → (∀ s ∈ v.map pyCanon, pipeFree s) → (∀ s ∈ w.map pyCanon, pipeFree s)
        → ¬ v.map pyCanon = w.map pyCanon → ¬ md5_hash v = md5_hash w)
    ∧ pyCanon PyVal.vnone = pyCanon (PyVal.vstr "") := by
  refine ⟨fun v w hvw => by rw [hvw], fun v w hc => ?_, md5_sensitivity, rfl⟩
  rw [md5_hash, md5_hash, hc]

/-- Witness for the amended C7 at concrete inputs: determinism, sensitivity to
an attribute change, and sensitivity to the deletion flag. -/
theorem claim_C7_fingerprint_amended_witness :
    md5_hash [PyVal.vstr "a", PyVal.vbool false]
      = md5_hash [PyVal.vstr "a", PyVal.vbool false]
    ∧ ¬ md5_hash [PyVal.vstr "a", PyVal.vbool false]
        = md5_hash [PyVal.vstr "b", PyVal.vbool false]
    ∧ ¬ md5_hash [PyVal.vstr "a", PyVal.vbool false]
        = md5_hash [PyVal.vstr "a", PyVal.vbool true] :=
  ⟨claim_C7_fingerprint_amended.1 _ _ rfl,
   claim_C7_fingerprint_amended.2.2.1
     [PyVal.vstr "a", PyVal.vbool false] [PyVal.vstr "b", PyVal.vbool false]
     (by decide) (by decide) (by decide) (by decide),
   claim_C7_fingerprint_amended.2.2.1
     [PyVal.vstr "a", PyVal.vbool false] [PyVal.vstr "a", PyVal.vbool true]
     (by decide) (by decide) (by decide) (by decide)⟩

/-- C8 (Mandatory provenance precondition): when no SUCCESS batch matches the
(dataset, as-of) pair the run fails before any diff and the committed history is
untouched; when one resolves, the resolved id is a matching SUCCESS batch id,
it is the latest (maximal) such id, and every version inserted by the run is
stamped with it. -/
theorem claim_C8_batch_precondition (batches : List BatchRun) (dataset : String)
    (silver : List (String × SalAttrs)) (h : SalHisto) (as_of : Nat) :
    ((∀ br ∈ batches,
        ¬ (br.dataset = dataset ∧ br.as_of_date = as_of ∧ br.status = "SUCCESS"))
      → runSalarieTx batches dataset silver h as_of
          = (Except.error ("No SUCCESS batch found for dataset=" ++ dataset), h))
    ∧ (∀ b, get_latest_batch_id batches dataset as_of = Except.ok b
        → (∃ br ∈ batches,
            (br.dataset = dataset ∧ br.as_of_date = as_of ∧ br.status = "SUCCESS")
              ∧ br.batch_id = b)
          ∧ (∀ br ∈ batches,
              (br.dataset = dataset ∧ br.as_of_date = as_of ∧ br.status = "SUCCESS")
                → br.batch_id ≤ b)
          ∧ ∃ h2 news, runSalarieTx batches dataset silver h as_of = (Except.ok h2, h2)
              ∧ List.Forall₂ (frameRel as_of) (h ++ news) h2
              ∧ ∀ r ∈ news, r.batch_id = b) := by
  constructor
  · intro hno
    rw [runSalarieTx, runSalarie, get_latest_none batches dataset as_of hno]
    rfl
  · intro b hb
    obtain ⟨hex, hle⟩ := get_latest_spec batches dataset as_of b hb
    refine ⟨hex, hle, ?_⟩
    obtain ⟨news, hf, hfr⟩ := frame_applyOps as_of b
      (reconcileSal silver (fetch_gold_current h)) h
    refine ⟨_, news, ?_, hf, fun r hr => (hfr r hr).2.2.2.1⟩
    rw [runSalarieTx, runSalarie, hb]
    rfl

/-- Witness for C8: with an empty registry the run fails with the history
unchanged; with a matching SUCCESS batch the resolved id 7 is stamped on every
inserted version. -/
theorem claim_C8_batch_precondition_witness :
    runSalarieTx [] "salarie" silverW [] 20240101
      = (Except.error ("No SUCCESS batch found for dataset=" ++ "salarie"), [])
    ∧ (∃ br ∈ [batchW],
        (br.dataset = "salarie" ∧ br.as_of_date = 20240101 ∧ br.status = "SUCCESS")
          ∧ br.batch_id = 7)
    ∧ ∃ h2 news, runSalarieTx [batchW] "salarie" silverW [] 20240101
          = (Except.ok h2, h2)
        ∧ List.Forall₂ (frameRel 20240101) ([] ++ news) h2
        ∧ ∀ r ∈ news, r.batch_id = 7 :=
  ⟨(claim_C8_batch_precondition [] "salarie" silverW [] 20240101).1
      (by intro br hbr; cases hbr),
   ((claim_C8_batch_precondition [batchW] "salarie" silverW [] 20240101).2 7 rfl).1,
   ((claim_C8_batch_precondition [batchW] "salarie" silverW [] 20240101).2 7 rfl).2.2⟩

/-- C9 (Tombstone construction is partial on null amounts): a first paiement
run ingests a silver row whose `montant_paye` is null and succeeds, leaving a
current non-deleted version with a null amount; a second run whose snapshot
omits the key hits the unguarded `float(None)` in the tombstone dict, raises
`TypeError`, and the whole run aborts with the history rolled back. The same
happens in the demande_avance reconciler for a null `montant_demande`. -/
theorem claim_C9_tombstone_float_partial :
    runPaiement
        [{ batch_id := 1, dataset := "paiement", as_of_date := 1, status := "SUCCESS" }]
        "paiement" [("P1", paiAttrsC9)] [] 1 = Except.ok hPai
    ∧ (pai_insert_version "P1" paiAttrsC9 1 1 false).is_deleted = false
    ∧ (pai_insert_version "P1" paiAttrsC9 1 1 false).is_current = true
    ∧ (pai_insert_version "P1" paiAttrsC9 1 1 false).montant_paye = Option.none
    ∧ runPaiementTx
        [{ batch_id := 2, dataset := "paiement", as_of_date := 2, status := "SUCCESS" }]
        "paiement" [] hPai 2
        = (Except.error
            "TypeError: float() argument must be a string or a real number, not NoneType",
           hPai)
    ∧ runDemande
        [{ batch_id := 1, dataset := "demande_avance", as_of_date := 1,
           status := "SUCCESS" }]
        "demande_avance" [("D1", demAttrsC9)] [] 1 = Except.ok hDem
    ∧ (dem_insert_version "D1" demAttrsC9 1 1 false).montant_demande = Option.none
    ∧ runDemandeTx
        [{ batch_id := 2, dataset := "demande_avance", as_of_date := 2,
           status := "SUCCESS" }]
        "demande_avance" [] hDem 2
        = (Except.error
            "TypeError: float() argument must be a string or a real number, not NoneType",
           hDem) :=
  ⟨rfl, rfl, rfl, rfl, rfl, rfl, rfl, rfl⟩

/-- C10 (Frame property of the writer): a successful run transforms the history
so that every pre-existing row is either untouched or has exactly its
`valid_to`/`is_current` columns rewritten (`frameRel`), and every other row of
the result is a freshly inserted version (`valid_from = as_of`, open-ended,
current, hash of its own attributes and flag, stamped with the resolved batch).
In particular no row is ever physically deleted and no persisted version's
business attributes, `record_hash`, `batch_id` or `valid_from` are modified. -/
theorem claim_C10_frame (batches : List BatchRun) (dataset : String)
    (silver : List (String × SalAttrs)) (h : SalHisto) (as_of : Nat) (b : Int)
    (h2 : SalHisto) (hb : get_latest_batch_id batches dataset as_of = Except.ok b)
    (hrun : runSalarie batches dataset silver h as_of = Except.ok h2) :
    ∃ news, List.Forall₂ (frameRel as_of) (h ++ news) h2
      ∧ ∀ r ∈ news, freshRow as_of b r := by
  rw [runSalarie, hb] at hrun
  have hh2 : h2 = applyOps as_of b h (reconcileSal silver (fetch_gold_current h)) := by
    injection hrun with hx
    exact hx.symm
  subst hh2
  exact frame_applyOps as_of b _ h

/-- Witness for C10: a run over a one-row history that closes the stale row and
inserts a fresh one. -/
theorem claim_C10_frame_witness :
    ∃ news, List.Forall₂ (frameRel 20240101) ([rowStale] ++ news)
        [{ rowStale with valid_to := 20240101, is_current := false },
         insert_version "A" aW 20240101 7 false]
      ∧ ∀ r ∈ news, freshRow 20240101 7 r :=
  claim_C10_frame [batchW] "salarie" silverW [rowStale] 20240101 7
    [{ rowStale with valid_to := 20240101, is_current := false },
     insert_version "A" aW 20240101 7 false] rfl rfl
